import Mathlib

/-!
Verification of the job-portal backend's matching and alerting core
(`backend/ai_utils.py` and the alert scan in `backend/routes.py`).

Python strings are modelled as `List Char`; a Python value that may be
`None` is modelled as `Option`.  Character classes are stated on ASCII
code points: `97..122` is `a..z`, `48..57` is `0..9`, `65..90` is `A..Z`,
and the whitespace codes `32, 9, 10, 13, 11, 12` are the ASCII characters
matched by the regex class `\s`.
-/

/-- ASCII lowering, as `str.lower()` acts on the ASCII range:
uppercase `A..Z` shifts by 32, everything else is unchanged. -/
def pyLowerChar (c : Char) : Char :=
  if 65 ≤ c.toNat ∧ c.toNat ≤ 90 then Char.ofNat (c.toNat + 32) else c

/-- `str.lower()` on a whole string (ASCII range). -/
def pyLower (s : List Char) : List Char := s.map pyLowerChar

/-- A character kept by a token after splitting: lowercase letter or digit,
i.e. it matches `[a-z0-9]`. -/
def isTokenChar (c : Char) : Bool :=
  (97 ≤ c.toNat && c.toNat ≤ 122) || (48 ≤ c.toNat && c.toNat ≤ 57)

/-- The regex class `\s` on ASCII: space, tab, newline, carriage return,
vertical tab, form feed. -/
def isSpaceChar (c : Char) : Bool :=
  c.toNat = 32 || c.toNat = 9 || c.toNat = 10 || c.toNat = 13 ||
    c.toNat = 11 || c.toNat = 12

/-- A character surviving `re.sub(r'[^a-z0-9\s]', '', text)`. -/
def isKeptChar (c : Char) : Bool := isTokenChar c || isSpaceChar c

/-- `ai_utils.preprocess`: empty guard, lowercase, strip every character
outside `[a-z0-9\s]`. -/
def preprocess (text : List Char) : List Char :=
  if text = [] then []
  else (text.map pyLowerChar).filter isKeptChar

/-- Worker for `str.split()`: accumulates the current token (reversed) and
emits it at each whitespace run boundary; empty tokens are never produced. -/
def splitWsAux : List Char → List Char → List (List Char)
  | [], acc => if acc.isEmpty then [] else [acc.reverse]
  | c :: cs, acc =>
    if isSpaceChar c then
      if acc.isEmpty then splitWsAux cs [] else acc.reverse :: splitWsAux cs []
    else splitWsAux cs (c :: acc)

/-- Python `str.split()` with no argument: split on whitespace runs,
dropping empty tokens. -/
def pySplit (s : List Char) : List (List Char) := splitWsAux s []

/-- The fixed stopword set of `ai_utils.get_keywords`. -/
def stopwords : List (List Char) :=
  ["and", "the", "to", "of", "a", "in", "for", "with", "on", "as", "is",
    "required"].map String.toList

/-- `ai_utils.get_keywords`: preprocess, split on whitespace, drop
stopwords.  The Python function returns a list (not a set). -/
def get_keywords (text : List Char) : List (List Char) :=
  (pySplit (preprocess text)).filter (fun w => decide (w ∉ stopwords))

/-- `ai_utils.preprocess` applied to an argument that may be Python
`None`: the `if not text` guard sends `None` to the empty string. -/
def preprocessOpt : Option (List Char) → List Char
  | none => []
  | some t => preprocess t

/-- `ai_utils.get_keywords` applied to an argument that may be `None`. -/
def get_keywordsOpt (text : Option (List Char)) : List (List Char) :=
  (pySplit (preprocessOpt text)).filter (fun w => decide (w ∉ stopwords))

/-- `" ".join(...)` over a list of tokens. -/
def joinSp : List (List Char) → List Char
  | [] => []
  | [w] => w
  | w :: ws => w ++ ' ' :: joinSp ws

/-- `ai_utils.calculate_match_score`: Jaccard similarity of the two
keyword sets, scaled by 500 and clamped to 100.  The Python float
expression `min(int(len(I)/len(U) * 500), 100)` is rendered with exact
integer arithmetic: `int` truncates the non-negative quotient, so it is
`(|I| * 500) / |U|` in natural-number division. -/
def calculate_match_score (job_description candidate_text : List Char) : ℕ :=
  let job_keywords := (get_keywords job_description).toFinset
  let resume_keywords := (get_keywords candidate_text).toFinset
  if job_keywords = ∅ then 0
  else
    let intersection := job_keywords ∩ resume_keywords
    let union := job_keywords ∪ resume_keywords
    if union = ∅ then 0
    else min (intersection.card * 500 / union.card) 100

/-- A stored alert record, as read by `routes.check_alerts`:
only `email` and `keyword` are consulted. -/
structure Alert where
  email : List Char
  keyword : List Char
deriving DecidableEq

/-- The job document dictionary as `routes.check_alerts` reads it.
`title` and `description` are always present (required fields of the
pydantic model).  For `company` and `location` the outer `Option` records
whether the KEY is present in the dictionary and the inner `Option`
whether the value is Python `None`: `none` = key absent, `some none` =
key maps to `None`, `some (some s)` = key maps to the string `s`. -/
structure JobDoc where
  title : List Char
  description : List Char
  company : Option (Option (List Char))
  location : Option (Option (List Char))
deriving DecidableEq

/-- Python `dict.get(key, default)`: the default applies only when the
key is absent; a key that is present with value `None` yields `None`. -/
def dget (field : Option (Option (List Char))) (default : List Char) :
    Option (List Char) :=
  match field with
  | none => some default
  | some v => v

/-- The keyword test of `routes.check_alerts`: the lowercased alert
keyword occurs as a substring of the lowercased title or of the
lowercased description (`in` on Python strings). -/
def matchesAlert (keyword title description : List Char) : Bool :=
  decide (pyLower keyword <:+: pyLower title) ||
    decide (pyLower keyword <:+: pyLower description)

/-- The argument tuple of one `send_job_alert` invocation: recipient
email, lowercased matched keyword, job title, company and location
(the latter two may be Python `None`). -/
structure Notification where
  email : List Char
  keyword : List Char
  title : List Char
  company : Option (List Char)
  location : Option (List Char)
deriving DecidableEq

/-- The notification `check_alerts` builds for a matching alert:
`send_job_alert(alert["email"], keyword, job_doc["title"],
job_doc.get("company", "Confidential"), job_doc.get("location", "Remote"))`
with `keyword = alert["keyword"].lower()`. -/
def alertNotification (a : Alert) (job : JobDoc) : Notification :=
  { email := a.email
    keyword := pyLower a.keyword
    title := job.title
    company := dget job.company ("Confidential".toList)
    location := dget job.location ("Remote".toList) }

/-- `email_utils.send_job_alert`: builds the message and calls the
mailer inside `try/except`, so a mailer failure is swallowed (logged)
and the function itself always returns normally. -/
def send_job_alert (mailer : Notification → Except (List Char) Unit)
    (n : Notification) : Except (List Char) Unit :=
  match mailer n with
  | Except.ok u => Except.ok u
  | Except.error _ => Except.ok ()

/-- `routes.check_alerts`: iterate over all stored alerts in order; for
each alert whose lowercased keyword is a substring of the lowercased
title or description, invoke the email collaborator inside `try/except`.
The result of each attempted delivery is recorded and the loop continues
regardless of it; the function itself never raises (its type carries no
exception). -/
def check_alerts (send : Notification → Except (List Char) Unit) :
    List Alert → JobDoc → List (Notification × Except (List Char) Unit)
  | [], _ => []
  | a :: rest, job =>
    if matchesAlert a.keyword job.title job.description then
      let n := alertNotification a job
      (n, send n) :: check_alerts send rest job
    else check_alerts send rest job

/-- The request body of `POST /jobs` (`models.JobCreate`), restricted to
the fields the alert scan reads.  `company` and `location` are both
`Optional[str] = None`: an omitted field arrives as Python `None`. -/
structure JobCreate where
  title : List Char
  description : List Char
  company : Option (List Char)
  location : Option (List Char)
deriving DecidableEq

/-- The job document `routes.create_job` builds:
`{**job.model_dump(), ...}`.  `model_dump()` emits EVERY field of the
model, so the `company` and `location` keys are always present in the
dictionary, holding `None` when the request omitted them. -/
def jobDocOfCreate (j : JobCreate) : JobDoc :=
  { title := j.title
    description := j.description
    company := some j.company
    location := some j.location }

/-- The alert-scan invocations triggered by `routes.create_job`
(`await check_alerts(job_doc, db)` runs inline before the response). -/
def create_job_notifications (send : Notification → Except (List Char) Unit)
    (alerts : List Alert) (j : JobCreate) :
    List (Notification × Except (List Char) Unit) :=
  check_alerts send alerts (jobDocOfCreate j)

example : get_keywords ("The Java Developer is required".toList) =
    ["java".toList, "developer".toList] := by decide

/-! ### Lemmas about whitespace splitting -/

theorem splitWsAux_ne_nil (s : List Char) :
    ∀ (acc : List Char), ∀ w ∈ splitWsAux s acc, w ≠ [] := by
  induction s with
  | nil =>
    intro acc w hw
    simp only [splitWsAux] at hw
    by_cases h : acc.isEmpty
    · simp [h] at hw
    · simp [h] at hw
      subst hw
      simp only [List.isEmpty_iff] at h
      simpa using h
  | cons c cs ih =>
    intro acc w hw
    simp only [splitWsAux] at hw
    by_cases hsp : isSpaceChar c
    · by_cases he : acc.isEmpty
      · simp [hsp, he] at hw
        exact ih [] w hw
      · simp [hsp, he] at hw
        rcases hw with hw | hw
        · subst hw
          simp only [List.isEmpty_iff] at he
          simpa using he
        · exact ih [] w hw
    · simp [hsp] at hw
      exact ih (c :: acc) w hw

theorem splitWsAux_chars (p : Char → Prop) (s : List Char) :
    ∀ (acc : List Char), (∀ c ∈ acc, isSpaceChar c = false ∧ p c) →
      (∀ c ∈ s, isSpaceChar c = false → p c) →
      ∀ w ∈ splitWsAux s acc, ∀ c ∈ w, isSpaceChar c = false ∧ p c := by
  induction s with
  | nil =>
    intro acc hacc _ w hw c hc
    simp only [splitWsAux] at hw
    by_cases he : acc.isEmpty
    · simp [he] at hw
    · simp [he] at hw
      subst hw
      exact hacc c (by simpa using hc)
  | cons d cs ih =>
    intro acc hacc hs w hw c hc
    simp only [splitWsAux] at hw
    by_cases hsp : isSpaceChar d
    · by_cases he : acc.isEmpty
      · simp [hsp, he] at hw
        exact ih [] (by simp) (fun e he1 hsp1 => hs e (by simp [he1]) hsp1) w hw c hc
      · simp [hsp, he] at hw
        rcases hw with hw | hw
        · subst hw
          exact hacc c (by simpa using hc)
        · exact ih [] (by simp) (fun e he1 hsp1 => hs e (by simp [he1]) hsp1) w hw c hc
    · simp [hsp] at hw
      have hd : isSpaceChar d = false := by
        simpa using hsp
      refine ih (d :: acc) ?_ (fun e he1 hsp1 => hs e (by simp [he1]) hsp1) w hw c hc
      intro e he1
      rcases List.mem_cons.mp he1 with rfl | he2
      · exact ⟨hd, hs e (by simp) hd⟩
      · exact hacc e he2

theorem splitWsAux_append (w : List Char) :
    ∀ (s acc : List Char), (∀ c ∈ w, isSpaceChar c = false) →
      splitWsAux (w ++ s) acc = splitWsAux s (w.reverse ++ acc) := by
  induction w with
  | nil =>
    intro s acc _
    simp
  | cons c cw ih =>
    intro s acc hw
    have hc : isSpaceChar c = false := hw c (by simp)
    simp only [List.cons_append, splitWsAux, hc, Bool.false_eq_true, if_false,
      List.append_eq]
    rw [ih s (c :: acc) (fun e he => hw e (by simp [he]))]
    simp

theorem joinSp_pair (w x : List Char) (ws : List (List Char)) :
    joinSp (w :: x :: ws) = w ++ ' ' :: joinSp (x :: ws) := rfl

theorem pySplit_joinSp (ws : List (List Char)) :
    (∀ w ∈ ws, w ≠ []) →
    (∀ w ∈ ws, ∀ c ∈ w, isSpaceChar c = false) →
    pySplit (joinSp ws) = ws := by
  induction ws with
  | nil =>
    intro _ _
    rfl
  | cons w tl ih =>
    intro h1 h2
    have hw1 : w ≠ [] := h1 w (by simp)
    have hw2 : ∀ c ∈ w, isSpaceChar c = false := h2 w (by simp)
    cases tl with
    | nil =>
      show splitWsAux (joinSp [w]) [] = [w]
      have hj : joinSp [w] = w := rfl
      have happ := splitWsAux_append w [] [] hw2
      rw [List.append_nil] at happ
      rw [hj, happ]
      simp only [splitWsAux, List.append_nil]
      rw [if_neg (by simpa [List.isEmpty_iff] using hw1)]
      simp
    | cons x tl2 =>
      show splitWsAux (joinSp (w :: x :: tl2)) [] = w :: x :: tl2
      rw [joinSp_pair]
      rw [splitWsAux_append w (' ' :: joinSp (x :: tl2)) [] hw2]
      simp only [splitWsAux, List.append_nil]
      rw [if_pos (by decide : isSpaceChar ' ' = true)]
      rw [if_neg (by simpa [List.isEmpty_iff] using hw1)]
      rw [show splitWsAux (joinSp (x :: tl2)) [] = pySplit (joinSp (x :: tl2)) from rfl]
      rw [ih (fun v hv => h1 v (by simp [hv])) (fun v hv => h2 v (by simp [hv]))]
      simp

/-! ### Lemmas about character classes and keyword extraction -/

theorem isTokenChar_not_space (c : Char) (h : isTokenChar c = true) :
    isSpaceChar c = false := by
  simp only [isTokenChar, Bool.or_eq_true, Bool.and_eq_true,
    decide_eq_true_eq] at h
  simp only [isSpaceChar]
  simp only [Bool.or_eq_false_iff, decide_eq_false_iff_not]
  omega

theorem isTokenChar_kept (c : Char) (h : isTokenChar c = true) :
    isKeptChar c = true := by
  simp [isKeptChar, h]

theorem pyLowerChar_token_fixed (c : Char) (h : isTokenChar c = true) :
    pyLowerChar c = c := by
  simp only [isTokenChar, Bool.or_eq_true, Bool.and_eq_true,
    decide_eq_true_eq] at h
  simp only [pyLowerChar]
  rw [if_neg]
  omega

theorem get_keywords_mem (text w : List Char) (hw : w ∈ get_keywords text) :
    w ≠ [] ∧ (∀ c ∈ w, isTokenChar c = true) ∧ w ∉ stopwords := by
  simp only [get_keywords, List.mem_filter, decide_eq_true_eq] at hw
  obtain ⟨hsplit, hstop⟩ := hw
  have hsrc : ∀ e ∈ preprocess text, isSpaceChar e = false → isTokenChar e = true := by
    intro e he hsp
    simp only [preprocess] at he
    by_cases ht : text = []
    · simp [ht] at he
    · rw [if_neg ht] at he
      have hk := (List.mem_filter.mp he).2
      simp only [isKeptChar, Bool.or_eq_true] at hk
      rcases hk with hk | hk
      · exact hk
      · simp [hk] at hsp
  refine ⟨splitWsAux_ne_nil _ [] w hsplit, ?_, hstop⟩
  intro c hc
  exact (splitWsAux_chars (fun c => isTokenChar c = true) (preprocess text) []
    (by simp) hsrc w hsplit c hc).2

theorem preprocess_fixed (s : List Char)
    (h : ∀ c ∈ s, isKeptChar c = true ∧ pyLowerChar c = c) :
    preprocess s = s := by
  by_cases hs : s = []
  · simp [preprocess, hs]
  · simp only [preprocess, if_neg hs]
    have hmap : ∀ (t : List Char), (∀ c ∈ t, pyLowerChar c = c) →
        t.map pyLowerChar = t := by
      intro t ht
      induction t with
      | nil => rfl
      | cons c cs ih =>
        simp only [List.map_cons, ht c (by simp),
          ih (fun e he => ht e (by simp [he]))]
    rw [hmap s (fun c hc => (h c hc).2)]
    exact List.filter_eq_self.mpr fun c hc => (h c hc).1

theorem joinSp_chars : ∀ (ws : List (List Char)),
    (∀ w ∈ ws, ∀ c ∈ w, isTokenChar c = true) →
    ∀ c ∈ joinSp ws, isKeptChar c = true ∧ pyLowerChar c = c := by
  intro ws
  induction ws with
  | nil =>
    intro _ c hc
    simp [joinSp] at hc
  | cons w tl ih =>
    intro h2 c hc
    cases tl with
    | nil =>
      have hj : joinSp [w] = w := rfl
      rw [hj] at hc
      have ht := h2 w (by simp) c hc
      exact ⟨isTokenChar_kept c ht, pyLowerChar_token_fixed c ht⟩
    | cons x tl2 =>
      rw [joinSp_pair] at hc
      rcases List.mem_append.mp hc with hc | hc
      · have ht := h2 w (by simp) c hc
        exact ⟨isTokenChar_kept c ht, pyLowerChar_token_fixed c ht⟩
      · rcases List.mem_cons.mp hc with rfl | hc
        · exact ⟨by decide, by decide⟩
        · exact ih (fun v hv => h2 v (by simp [hv])) c hc

theorem get_keywords_joinSp (ws : List (List Char))
    (h1 : ∀ w ∈ ws, w ≠ [])
    (h2 : ∀ w ∈ ws, ∀ c ∈ w, isTokenChar c = true)
    (h3 : ∀ w ∈ ws, w ∉ stopwords) :
    get_keywords (joinSp ws) = ws := by
  simp only [get_keywords]
  rw [preprocess_fixed (joinSp ws) (joinSp_chars ws h2)]
  rw [pySplit_joinSp ws h1
    (fun w hw c hc => isTokenChar_not_space c (h2 w hw c hc))]
  exact List.filter_eq_self.mpr fun w hw => by
    simpa using h3 w hw

theorem get_keywords_idem (text : List Char) :
    get_keywords (joinSp (get_keywords text)) = get_keywords text := by
  refine get_keywords_joinSp (get_keywords text) ?_ ?_ ?_
  · intro w hw
    exact (get_keywords_mem text w hw).1
  · intro w hw
    exact (get_keywords_mem text w hw).2.1
  · intro w hw
    exact (get_keywords_mem text w hw).2.2

/-! ### Lemmas about the alert scan -/

theorem check_alerts_map_fst (send : Notification → Except (List Char) Unit)
    (alerts : List Alert) (job : JobDoc) :
    (check_alerts send alerts job).map Prod.fst =
      (alerts.filter
        (fun a => matchesAlert a.keyword job.title job.description)).map
        (fun a => alertNotification a job) := by
  induction alerts with
  | nil => rfl
  | cons a rest ih =>
    by_cases h : matchesAlert a.keyword job.title job.description
    · simp [check_alerts, h, ih]
    · simp [check_alerts, h, ih]

example : get_keywords ("java java".toList) =
    ["java".toList, "java".toList] := by decide

/-! ### Arithmetic bridge between natural-number division and the
rational Jaccard expression -/

theorem score_arith (i u : ℕ) :
    min (i * 500 / u) 100 = ⌊min (((i : ℚ) / (u : ℚ)) * 500) 100⌋₊ := by
  have hq : ((i : ℚ) / (u : ℚ)) * 500 = ((i * 500 : ℕ) : ℚ) / (u : ℚ) := by
    push_cast
    ring
  rw [hq]
  rcases le_total (((i * 500 : ℕ) : ℚ) / (u : ℚ)) (100 : ℚ) with hle | hle
  · rw [min_eq_left hle, Nat.floor_div_nat, Nat.floor_natCast]
    refine min_eq_left ?_
    have h2 := Nat.floor_mono hle
    rwa [Nat.floor_div_nat, Nat.floor_natCast, Nat.floor_ofNat] at h2
  · rw [min_eq_right hle, Nat.floor_ofNat]
    refine min_eq_right ?_
    have h2 := Nat.floor_mono hle
    rwa [Nat.floor_div_nat, Nat.floor_natCast, Nat.floor_ofNat] at h2

example : calculate_match_score ("java developer".toList) ("java".toList) =
    min (1 * 500 / 2) 100 := by decide

example : calculate_match_score ("the".toList) ("the".toList) = 0 := by decide

example : calculate_match_score ("Python developer needed".toList)
    ("Experienced Python engineer".toList) = 100 := by decide

example : matchesAlert ("python".toList) ("Senior Python Engineer".toList)
    ("...".toList) = true := by decide

example : matchesAlert ("rust".toList) ("Senior Python Engineer".toList)
    ("no trust here".toList) = true := by decide

example : matchesAlert ("rust".toList) ("Senior Python Engineer".toList)
    ("crab language".toList) = false := by decide

example :
    (check_alerts (fun _ => Except.error ("down".toList))
      [⟨"a@x".toList, "Java".toList⟩, ⟨"b@x".toList, "go".toList⟩,
        ⟨"a@x".toList, "java".toList⟩]
      ⟨"Java dev".toList, "d".toList, none, some none⟩).map Prod.fst =
    [⟨"a@x".toList, "java".toList, "Java dev".toList,
        some ("Confidential".toList), none⟩,
      ⟨"a@x".toList, "java".toList, "Java dev".toList,
        some ("Confidential".toList), none⟩] := by decide

/-! ## Claim theorems -/

/-- C1: for every pair of input strings, the match score is 0 when the
job's keyword set is empty, and otherwise is the floor of
`min(J * 500, 100)` where `J` is the Jaccard index of the two keyword
sets; the result is always an integer in `[0, 100]` (it is a natural
number bounded by 100). -/
theorem C1_score_formula (jd ct : List Char) :
    (calculate_match_score jd ct =
      if (get_keywords jd).toFinset = ∅ then 0
      else
        ⌊min (((((get_keywords jd).toFinset ∩ (get_keywords ct).toFinset).card : ℚ) /
            (((get_keywords jd).toFinset ∪ (get_keywords ct).toFinset).card : ℚ)) * 500)
          100⌋₊) ∧
    calculate_match_score jd ct ≤ 100 := by
  constructor
  · by_cases h : (get_keywords jd).toFinset = ∅
    · simp [calculate_match_score, h]
    · have hu : (get_keywords jd).toFinset ∪ (get_keywords ct).toFinset ≠ ∅ :=
        fun hh => h (Finset.union_eq_empty.mp hh).1
      rw [if_neg h]
      simp only [calculate_match_score]
      rw [if_neg h, if_neg hu]
      exact score_arith _ _
  · by_cases h : (get_keywords jd).toFinset = ∅
    · simp [calculate_match_score, h]
    · by_cases hu : (get_keywords jd).toFinset ∪ (get_keywords ct).toFinset = ∅
      · simp [calculate_match_score, h, hu]
      · simp only [calculate_match_score]
        rw [if_neg h, if_neg hu]
        exact min_le_right _ _

/-- C2: the keyword extractor is exactly: lowercase, delete every
character outside `[a-z0-9\s]`, split on whitespace, drop the fixed
stopwords; empty and absent (`None`) input both yield no keywords; and
extracting from "The Java Developer is required" yields exactly
the set {java, developer}. -/
theorem C2_extract_keywords_pipeline :
    (∀ text : List Char,
      get_keywords text =
        (pySplit ((text.map pyLowerChar).filter isKeptChar)).filter
          (fun w => decide (w ∉ stopwords))) ∧
    get_keywords [] = [] ∧
    get_keywordsOpt none = [] ∧
    (get_keywords ("The Java Developer is required".toList)).toFinset =
      {"java".toList, "developer".toList} := by
  refine ⟨?_, by decide, by decide, by decide⟩
  intro text
  by_cases h : text = []
  · subst h
    rfl
  · simp only [get_keywords, preprocess]
    rw [if_neg h]

/-- C3 (evaluation at the failing input): the Python extractor returns a
list, not a set — on "java java" the token "java" appears twice, so
duplicates do not collapse, contradicting both the claim and the
function's own docstring ("Extract unique words as keywords"). -/
theorem C3_get_keywords_duplicates :
    get_keywords ("java java".toList) = ["java".toList, "java".toList] ∧
    ¬ (get_keywords ("java java".toList)).Nodup := by
  exact ⟨by decide, by decide⟩

/-- C4: the alert keyword test is plain case-insensitive substring
containment against the title or the description; in particular
"python" matches the title "Senior Python Engineer", and "rust" does
not match it when the description also lacks "rust" as a substring. -/
theorem C4_matches_substring (k t d : List Char) :
    (matchesAlert k t d = true ↔
      (pyLower k <:+: pyLower t ∨ pyLower k <:+: pyLower d)) ∧
    matchesAlert ("python".toList) ("Senior Python Engineer".toList)
      ("...".toList) = true ∧
    matchesAlert ("rust".toList) ("Senior Python Engineer".toList)
      ("no crab here".toList) = false := by
  refine ⟨?_, by decide, by decide⟩
  simp [matchesAlert]

/-- C5: the alert scan triggered by job creation invokes the email
collaborator exactly once per stored alert whose keyword matches (the
invocation list is the matching sublist mapped to its payloads, so
alerts sharing an email each still get one invocation), passing the
alert's email, the lowercased matched keyword, and the job's title,
company and location, where the dictionary lookup defaults company to
"Confidential" and location to "Remote" exactly when the key is
absent. -/
theorem C5_notify_once_per_matching_alert
    (send : Notification → Except (List Char) Unit)
    (alerts : List Alert) (j : JobCreate) :
    (create_job_notifications send alerts j).map Prod.fst =
      (alerts.filter (fun a => matchesAlert a.keyword
          (jobDocOfCreate j).title (jobDocOfCreate j).description)).map
        (fun a => alertNotification a (jobDocOfCreate j)) ∧
    (create_job_notifications send alerts j).length =
      alerts.countP (fun a => matchesAlert a.keyword
        (jobDocOfCreate j).title (jobDocOfCreate j).description) ∧
    (∀ (a : Alert) (job : JobDoc),
      alertNotification a job =
        { email := a.email, keyword := pyLower a.keyword, title := job.title,
          company := dget job.company ("Confidential".toList),
          location := dget job.location ("Remote".toList) }) ∧
    (∀ d : List Char, dget none d = some d) ∧
    (∀ (v : Option (List Char)) (d : List Char), dget (some v) d = v) := by
  have hmap := check_alerts_map_fst send alerts (jobDocOfCreate j)
  refine ⟨hmap, ?_, fun a job => rfl, fun d => rfl, fun v d => rfl⟩
  have hlen := congrArg List.length hmap
  simpa [create_job_notifications, List.countP_eq_length_filter] using hlen

/-- C6: `send_job_alert` swallows every mailer failure (it always
returns normally), the set of attempted notifications of the alert scan
does not depend on which deliveries fail, and every matching alert —
in particular every one after a failing delivery — is still notified. -/
theorem C6_failures_isolated
    (send send₂ mailer : Notification → Except (List Char) Unit)
    (alerts : List Alert) (job : JobDoc) :
    (∀ n : Notification, send_job_alert mailer n = Except.ok ()) ∧
    (check_alerts send alerts job).map Prod.fst =
      (check_alerts send₂ alerts job).map Prod.fst ∧
    (∀ a ∈ alerts, matchesAlert a.keyword job.title job.description = true →
      alertNotification a job ∈ (check_alerts send alerts job).map Prod.fst) := by
  refine ⟨?_, ?_, ?_⟩
  · intro n
    simp only [send_job_alert]
    cases hm : mailer n with
    | ok u =>
      cases u
      rfl
    | error e => rfl
  · rw [check_alerts_map_fst, check_alerts_map_fst]
  · intro a ha hm
    rw [check_alerts_map_fst]
    simp only [List.mem_map]
    exact ⟨a, List.mem_filter.mpr ⟨ha, by simpa using hm⟩, rfl⟩

/-- C6 witness: with a mailer that always fails, the first alert matches
and fails, and the second matching alert is still notified. -/
theorem C6_failures_isolated_witness :
    alertNotification ⟨"b@x".toList, "Go".toList⟩
        ⟨"Go dev".toList, "d".toList, none, none⟩ ∈
      ((check_alerts (fun _ => Except.error ("smtp down".toList))
        [⟨"a@x".toList, "go".toList⟩, ⟨"b@x".toList, "Go".toList⟩]
        ⟨"Go dev".toList, "d".toList, none, none⟩).map Prod.fst) :=
  (C6_failures_isolated (fun _ => Except.error ("smtp down".toList))
      (fun _ => Except.ok ()) (fun _ => Except.ok ())
      [⟨"a@x".toList, "go".toList⟩, ⟨"b@x".toList, "Go".toList⟩]
      ⟨"Go dev".toList, "d".toList, none, none⟩).2.2
    ⟨"b@x".toList, "Go".toList⟩ (by decide) (by decide)

/-- C7 counterexample: "the" is a non-empty input text, yet scoring it
against itself yields 0, not 100 (its keyword set is empty because
"the" is a stopword), so the claim fails as stated. -/
theorem C7_counterexample :
    ("the".toList ≠ ([] : List Char)) ∧
    calculate_match_score ("the".toList) ("the".toList) = 0 ∧
    calculate_match_score ("the".toList) ("the".toList) ≠ 100 :=
  ⟨by decide, by decide, by decide⟩

/-- C7 (amended): for every input text whose extracted keyword set is
non-empty, scoring the text against itself yields 100. -/
theorem C7_self_score_100 (s : List Char)
    (h : (get_keywords s).toFinset ≠ ∅) :
    calculate_match_score s s = 100 := by
  simp only [calculate_match_score, Finset.inter_self, Finset.union_self]
  rw [if_neg h, if_neg h]
  have hc : (get_keywords s).toFinset.card ≠ 0 :=
    fun hh => h (Finset.card_eq_zero.mp hh)
  rw [Nat.mul_div_cancel_left 500 (Nat.pos_of_ne_zero hc)]
  rfl

/-- C7 witness: "java" has a non-empty keyword set and scores 100
against itself. -/
theorem C7_self_score_100_witness :
    ((get_keywords ("java".toList)).toFinset ≠ ∅) ∧
    calculate_match_score ("java".toList) ("java".toList) = 100 :=
  ⟨by decide, C7_self_score_100 ("java".toList) (by decide)⟩

/-- C8: the keyword extractor is idempotent — re-extracting from the
space-joined elements of its own output yields the same keyword set
(indeed the very same list). -/
theorem C8_extract_keywords_idempotent (text : List Char) :
    (get_keywords (joinSp (get_keywords text))).toFinset =
      (get_keywords text).toFinset ∧
    get_keywords (joinSp (get_keywords text)) = get_keywords text := by
  have h := get_keywords_idem text
  exact ⟨by rw [h], h⟩

/-- C9: every extracted keyword is a non-empty token of lowercase ASCII
letters and digits (it matches `[a-z0-9]+`) and is not a stopword. -/
theorem C9_keyword_invariant (text w : List Char)
    (hw : w ∈ get_keywords text) :
    w ≠ [] ∧ (∀ c ∈ w, isTokenChar c = true) ∧ w ∉ stopwords :=
  get_keywords_mem text w hw

/-- C9 witness: "java" is extracted from "Java, required!" and satisfies
the invariant. -/
theorem C9_keyword_invariant_witness :
    ("java".toList ∈ get_keywords ("Java, required!".toList)) ∧
    ("java".toList ≠ [] ∧ (∀ c ∈ "java".toList, isTokenChar c = true) ∧
      "java".toList ∉ stopwords) :=
  ⟨by decide,
    C9_keyword_invariant ("Java, required!".toList) ("java".toList) (by decide)⟩

/-- C10: whenever the job keyword set is non-empty, the union of the two
keyword sets is non-empty as well, so the guard returning 0 on an empty
union is unreachable and the division is by a positive number; the score
is then the scaled clamped Jaccard quotient directly. -/
theorem C10_division_safe (jd ct : List Char)
    (h : (get_keywords jd).toFinset ≠ ∅) :
    (get_keywords jd).toFinset ∪ (get_keywords ct).toFinset ≠ ∅ ∧
    0 < ((get_keywords jd).toFinset ∪ (get_keywords ct).toFinset).card ∧
    calculate_match_score jd ct =
      min ((((get_keywords jd).toFinset ∩ (get_keywords ct).toFinset).card * 500) /
        ((get_keywords jd).toFinset ∪ (get_keywords ct).toFinset).card) 100 := by
  have hu : (get_keywords jd).toFinset ∪ (get_keywords ct).toFinset ≠ ∅ :=
    fun hh => h (Finset.union_eq_empty.mp hh).1
  refine ⟨hu, Finset.card_pos.mpr (Finset.nonempty_iff_ne_empty.mpr hu), ?_⟩
  simp only [calculate_match_score]
  rw [if_neg h, if_neg hu]

/-- C10 witness: the job text "java" has a non-empty keyword set and the
union with the keywords of the empty candidate text is non-empty. -/
theorem C10_division_safe_witness :
    ((get_keywords ("java".toList)).toFinset ≠ ∅) ∧
    ((get_keywords ("java".toList)).toFinset ∪
      (get_keywords ([] : List Char)).toFinset ≠ ∅) :=
  ⟨by decide, (C10_division_safe ("java".toList) [] (by decide)).1⟩
